import Mathlib

/-!
Verification of the time-accounting core of the time-audit application.

The development shallowly embeds the TypeScript source:

* timestamps (JS milliseconds-since-epoch numbers) become `Int`;
* a calendar date string `YYYY-MM-DD` becomes an `Int` day index, with the
  local midnight of day `d` at timestamp `d * 86400000` (a fixed-offset
  timezone; `dayBounds` in the source likewise adds a constant 24h to the
  local midnight);
* JS `Record` / `Map` objects become insertion-ordered association lists
  with unique keys, updated in place exactly as `m[k] = (m[k] ?? 0) + v`
  and `map.set` do;
* `null` becomes `Option.none`; JS falsiness checks on `number | null`
  values (`!x`, `x || y`, `if (x)`) are modelled faithfully, i.e. the
  number `0` and the empty string count as falsy;
* an `async` command returning `Promise<void>` becomes a function into
  `Except String _` whose `.ok` is a normally-resolving promise and whose
  `.error` would be a rejection; persistence (the storage collaborator) is
  assumed to succeed.
-/

namespace TimeAudit

/-- One tracked time span (`TimeInterval` in src/types): `end = null` means
still open.  The field `end` is a Lean keyword, so it is called `iend`. -/
structure TimeInterval where
  start : Int
  iend : Option Int
deriving Repr, DecidableEq

/-- A persisted session (`Session` in src/types). -/
structure Session where
  id : String
  taskId : String
  intervals : List TimeInterval
deriving Repr, DecidableEq

/-- Folder/task discriminator (`ItemType` in src/types). -/
inductive ItemType where
  | folder
  | task
deriving Repr, DecidableEq

/-- A node of the folder/task tree (`Category` in src/types). -/
structure Category where
  id : String
  type : ItemType
  name : String
  color : String
  parentId : Option String
  order : Int
deriving Repr, DecidableEq

/-- Milliseconds of one local calendar day; `dayBounds` in
analyticsUtils.ts computes `end = start + 24 * 60 * 60 * 1000`. -/
def DAY : Int := 86400000

/-- Function `overlap` from analyticsUtils.ts: ms overlap of `[a,b]` with `[c,d]`. -/
def overlap (a b c d : Int) : Int := max 0 (min b d - max a c)

/-- Local midnight of day index `date` (start component of `dayBounds`). -/
def dayStart (date : Int) : Int := date * DAY

/-- Function `dateRange` from analyticsUtils.ts: all day indices in `[s, e]`,
empty when `e < s`. -/
def dateRange (s e : Int) : List Int :=
  (List.range (e - s + 1).toNat).map (fun i : Nat => s + (i : Int))

/-- Per-day aggregation record (`DayData` in analyticsUtils.ts); `byTask`
is the `Record<string, number>` as an association list. -/
structure DayData where
  date : Int
  totalMs : Int
  byTask : List (String × Int)
deriving Repr, DecidableEq

/-- JS `m[k] = (m[k] ?? 0) + v` on a `Record`/`Map`: add `v` at key `k`
in place, appending the key if absent. -/
def bump {κ : Type} [DecidableEq κ] (m : List (κ × Int)) (k : κ) (v : Int) :
    List (κ × Int) :=
  match m with
  | [] => [(k, v)]
  | (k1, v1) :: rest =>
    if k1 = k then (k1, v1 + v) :: rest else (k1, v1) :: bump rest k v

/-- Loop body of `aggregateToDays` for one interval of one session:
skip open intervals, clip the rest against the day window, and accrue a
positive overlap into the per-task map and running total. -/
def accrueInterval (d : Int) (taskId : String)
    (acc : List (String × Int) × Int) (iv : TimeInterval) :
    List (String × Int) × Int :=
  match iv.iend with
  | none => acc
  | some e =>
    let ms := overlap iv.start e (dayStart d) (dayStart d + DAY)
    if ms ≤ 0 then acc else (bump acc.1 taskId ms, acc.2 + ms)

/-- The body of the `dates.map` closure in `aggregateToDays`: one day's
`DayData` built by iterating all sessions and all their intervals. -/
def dayDataFor (sessions : List Session) (d : Int) : DayData :=
  let acc := sessions.foldl
    (fun acc s => s.intervals.foldl (accrueInterval d s.taskId) acc)
    ([], 0)
  ⟨d, acc.2, acc.1⟩

/-- Function `aggregateToDays` from analyticsUtils.ts. -/
def aggregateToDays (sessions : List Session) (dateStartArg dateEndArg : Int) :
    List DayData :=
  (dateRange dateStartArg dateEndArg).map (dayDataFor sessions)

/-- The per-day total of an aggregation result: the `totalMs` of the entry
for day `d`, `0` when the day is absent. -/
def dayTotal (l : List DayData) (d : Int) : Int :=
  match l.find? (fun x => x.date = d) with
  | some x => x.totalMs
  | none => 0

/-- The lookup `categories.find((c) => c.id === cur)` in `computeEffectiveDisplay`. -/
def findCat (categories : List Category) (cid : String) : Option Category :=
  categories.find? (fun c => c.id = cid)

/-- The upward while-loop of `computeEffectiveDisplay`, step-indexed: the
source loop `while (cur !== null)` has no cycle guard, so the embedding
carries a step budget.  `some chosen` means the loop exited with that
`chosen` value (`chosen = none` is the JS `chosen = null`); `none` means
the budget ran out before the loop exited, i.e. the loop ran at least
`fuel` iterations. -/
def walkUp (categories : List Category) (selectedIds : List String) :
    Nat → String → Option (Option String)
  | 0, _ => none
  | fuel + 1, cur =>
    if cur ∈ selectedIds then some (some cur)
    else
      match findCat categories cur with
      | some cat =>
        match cat.parentId with
        | some p => walkUp categories selectedIds fuel p
        | none => some none
      | none => some none

/-- The while-loop of `computeEffectiveDisplay` terminates on input `cur`:
some finite step budget suffices. -/
def walkTerminates (categories : List Category) (selectedIds : List String)
    (cur : String) : Prop :=
  ∃ fuel, (walkUp categories selectedIds fuel cur).isSome

/-- The ancestor-or-self chain of `cur` through `parentId` links, in the
order the `computeEffectiveDisplay` loop visits it (self first), also
step-indexed; the chain stops at a node with no parent or an id that is
not in the list, exactly where the loop variable would become null. -/
def ancestors (categories : List Category) :
    Nat → String → Option (List String)
  | 0, _ => none
  | fuel + 1, cur =>
    match findCat categories cur with
    | some cat =>
      match cat.parentId with
      | some p => (ancestors categories fuel p).map (fun l => cur :: l)
      | none => some [cur]
    | none => some [cur]

/-- JS `map.set k v`: replace the value at an existing key in place,
otherwise append the pair (keys are unique, as in a JS `Map`). -/
def mapSet : List (String × String) → String → String → List (String × String)
  | [], k, v => [(k, v)]
  | (k1, v1) :: rest, k, v =>
    if k1 = k then (k, v) :: rest else (k1, v1) :: mapSet rest k v

/-- JS `map.get k`: the value stored at `k`, if any. -/
def getEff : List (String × String) → String → Option String
  | [], _ => none
  | (k1, v1) :: rest, k => if k1 = k then some v1 else getEff rest k

/-- Function `computeEffectiveDisplay` from analyticsUtils.ts, with the walk budget
made explicit.  The source writes `if (chosen) map.set(task.id, chosen)`,
so a `chosen` that is null or the (falsy) empty string is not stored. -/
def computeEffectiveDisplay (categories : List Category)
    (selectedIds : List String) (fuel : Nat) : List (String × String) :=
  (categories.filter (fun c => c.type = ItemType.task)).foldl
    (fun m task =>
      match walkUp categories selectedIds fuel task.id with
      | some (some chosen) => if chosen = "" then m else mapSet m task.id chosen
      | _ => m)
    []

/-- Function `mergeDayDataWithDisplay` from analyticsUtils.ts.  The source writes
`if (!displayId) continue`, so a missing mapping and a (falsy) empty
display id are both skipped. -/
def mergeDayDataWithDisplay (dayData : List DayData)
    (effectiveMap : List (String × String)) : List DayData :=
  dayData.map (fun day =>
    let acc := day.byTask.foldl
      (fun acc p =>
        match effectiveMap.lookup p.1 with
        | none => acc
        | some displayId =>
          if displayId = "" then acc else (bump acc.1 displayId p.2, acc.2 + p.2))
      ([], 0)
    ⟨day.date, acc.2, acc.1⟩)

-- ── helpers.ts day bucketing (the older implementation) ──────────────────

/-- Local day index of a timestamp (`setHours(0,0,0,0)` expressed as an
index); `Int` division is floor division for the positive divisor. -/
def floorDay (ts : Int) : Int := ts / DAY

/-- The expression `interval.end || Date.now()` in `calculateTimeByDay`: JS `||` takes
the right operand when `end` is null or the falsy number `0`. -/
def jsEnd (iv : TimeInterval) (now : Int) : Int :=
  match iv.iend with
  | none => now
  | some e => if e = 0 then now else e

/-- The inner day loop of `calculateTimeByDay` for one interval: iterate
the days of the interval up to `endDate`, skip days before the range
start, clip against `[midnight, 23:59:59.999]` and add positive spans
into the per-day map keyed by day index. -/
def calcStep (startDate endDate now : Int) (m : List (Int × Int))
    (iv : TimeInterval) : List (Int × Int) :=
  let intervalEnd := jsEnd iv now
  let ds := dateRange (floorDay iv.start)
      (min (floorDay intervalEnd) (floorDay endDate))
  ds.foldl
    (fun m d =>
      if floorDay startDate ≤ d then
        if max iv.start (dayStart d) < min intervalEnd (dayStart d + DAY - 1)
        then
          bump m d
            (min intervalEnd (dayStart d + DAY - 1) - max iv.start (dayStart d))
        else m
      else m)
    m

/-- Function `calculateTimeByDay` from utils/helpers.ts, with the internal
`Date.now()` read threaded as `now`.  `startDate`/`endDate` are the
timestamps of the `Date` arguments; day keys are day indices. -/
def calculateTimeByDay (sessions : List Session) (startDate endDate now : Int) :
    List (Int × Int) :=
  sessions.foldl
    (fun m s => s.intervals.foldl (calcStep startDate endDate now) m)
    []

/-- The read `timeByDay.get(dayKey) || 0`: the per-day total of a
`calculateTimeByDay` result (day keys are unique in the JS `Map`). -/
def lookupTotal : List (Int × Int) → Int → Int
  | [], _ => 0
  | (k, v) :: rest, d => if k = d then v else lookupTotal rest d

-- ── Timer state machine (store/AppContext.tsx) ───────────────────────────

/-- Type `TimerStatus` from src/types; the source represents "no timer" as a
null `ActiveTimer`, so `idle` never occurs on a live timer object. -/
inductive TimerStatus where
  | idle
  | running
  | paused
deriving Repr, DecidableEq

/-- Type `ActiveTimer` from src/types. -/
structure ActiveTimer where
  sessionId : String
  taskId : String
  status : TimerStatus
  intervals : List TimeInterval
  elapsedMs : Int
  intervalStart : Option Int
deriving Repr, DecidableEq

/-- The slice of the provider state the timer commands read and write:
the persisted session list (kept in sync with storage by every command)
and the live timer. -/
structure AppState where
  sessions : List Session
  timer : Option ActiveTimer
deriving Repr, DecidableEq

/-- The `UPSERT_SESSION` reducer case: replace the session with the same
id in place, or append. -/
def upsertSessionList (sessions : List Session) (s : Session) : List Session :=
  if sessions.any (fun x => x.id = s.id) then
    sessions.map (fun x => if x.id = s.id then s else x)
  else sessions ++ [s]

/-- JS truthiness of `timer.intervalStart : number | null`: null and the
number `0` are falsy. -/
def truthyStart : Option Int → Bool
  | none => false
  | some n => n ≠ 0

/-- The update `intervals.map((iv, i) => i === length - 1 ? { ...iv, end: now } : iv)`
in `pauseTimer`: force-close the last interval. -/
def closeLast : List TimeInterval → Int → List TimeInterval
  | [], _ => []
  | [iv], now => [{ iv with iend := some now }]
  | iv :: rest, now => iv :: closeLast rest now

/-- The `stopTimer` variant: close the last interval only when it is
still open. -/
def closeLastOpen : List TimeInterval → Int → List TimeInterval
  | [], _ => []
  | [iv], now => if iv.iend = none then [{ iv with iend := some now }] else [iv]
  | iv :: rest, now => iv :: closeLastOpen rest now

/-- Command `startTimer` from AppContext.tsx; the random `genId()` result is the
explicit `sessionId` argument. -/
def startTimer (st : AppState) (taskId sessionId : String) (now : Int) :
    Except String AppState :=
  let interval : TimeInterval := ⟨now, none⟩
  let newTimer : ActiveTimer :=
    ⟨sessionId, taskId, .running, [interval], 0, some now⟩
  let session : Session := ⟨sessionId, taskId, [interval]⟩
  .ok ⟨upsertSessionList st.sessions session, some newTimer⟩

/-- Command `pauseTimer` from AppContext.tsx, guard
`if (!timer || timer.status !== 'running' || !timer.intervalStart) return`
included verbatim (an early return resolves the promise with no error). -/
def pauseTimer (st : AppState) (now : Int) : Except String AppState :=
  match st.timer with
  | none => .ok st
  | some timer =>
    if timer.status = TimerStatus.running ∧ truthyStart timer.intervalStart then
      let elapsed := timer.elapsedMs +
        (now - (timer.intervalStart.getD 0))
      let closedIntervals := closeLast timer.intervals now
      let updated : ActiveTimer :=
        { timer with
          status := .paused
          intervals := closedIntervals
          elapsedMs := elapsed
          intervalStart := none }
      let session : Session := ⟨timer.sessionId, timer.taskId, closedIntervals⟩
      .ok ⟨upsertSessionList st.sessions session, some updated⟩
    else .ok st

/-- Command `resumeTimer` from AppContext.tsx, guard
`if (!timer || timer.status !== 'paused') return` included. -/
def resumeTimer (st : AppState) (now : Int) : Except String AppState :=
  match st.timer with
  | none => .ok st
  | some timer =>
    if timer.status = TimerStatus.paused then
      let newIntervals := timer.intervals ++ [⟨now, none⟩]
      let updated : ActiveTimer :=
        { timer with
          status := .running
          intervals := newIntervals
          intervalStart := some now }
      let session : Session := ⟨timer.sessionId, timer.taskId, newIntervals⟩
      .ok ⟨upsertSessionList st.sessions session, some updated⟩
    else .ok st

/-- Command `stopTimer` from AppContext.tsx: `save = true` closes a trailing open
interval and persists, `save = false` deletes the session; either way the
timer is cleared. -/
def stopTimer (st : AppState) (save : Bool) (now : Int) :
    Except String AppState :=
  match st.timer with
  | none => .ok st
  | some timer =>
    if save then
      let closedIntervals := closeLastOpen timer.intervals now
      let session : Session := ⟨timer.sessionId, timer.taskId, closedIntervals⟩
      .ok ⟨upsertSessionList st.sessions session, none⟩
    else
      .ok ⟨st.sessions.filter (fun s => s.id ≠ timer.sessionId), none⟩

/-- Total duration of a session's intervals at instant `now`
(`(end ?? now) - start` summed). -/
def sessionDuration (s : Session) (now : Int) : Int :=
  (s.intervals.map (fun iv => (iv.iend.getD now) - iv.start)).sum

-- ── Interrupted-session detection (AppContext.tsx) ───────────────────────

/-- The test `s.intervals.some((iv) => iv.end === null)`. -/
def hasOpen (s : Session) : Bool :=
  s.intervals.any (fun iv => iv.iend.isNone)

/-- The expression `Math.max(...intervals.map((iv) => iv.start))`; only applied to
sessions that contain an open interval, hence to nonempty lists (the
empty-list value stands in for the unreachable JS `-Infinity`). -/
def maxStart (s : Session) : Int :=
  s.intervals.foldl (fun m iv => max m iv.start)
    (match s.intervals with
     | [] => 0
     | iv :: _ => iv.start)

/-- Head of the filtered list after the stable descending sort by
`maxStart`: the first element whose key is maximal (ES2019 sorts are
stable, so ties keep their original order and `[0]` picks the earliest
maximal element, which is what this fold computes). -/
def pickLatest (l : List Session) : Option Session :=
  l.foldl
    (fun best s =>
      match best with
      | none => some s
      | some b => if maxStart b < maxStart s then some s else some b)
    none

/-- Function `findInterruptedSession` from AppContext.tsx. -/
def findInterruptedSession (sessions : List Session) : Option Session :=
  pickLatest (sessions.filter hasOpen)

-- ── Derived statistics (AnalyticsScreen) ─────────────────────────────────

/-- The sum `days.reduce((a, d) => a + d.totalMs, 0)` — the Total time summary. -/
def totalAll (days : List DayData) : Int :=
  days.foldl (fun a d => a + d.totalMs) 0

/-- The selection `settings.analyticsExcludeZeroDays ? days.filter((d) => d.totalMs > 0)
: days` — the denominator day set of the averages. -/
def activeDays (days : List DayData) (excludeZeroDays : Bool) : List DayData :=
  if excludeZeroDays then days.filter (fun d => 0 < d.totalMs) else days

/-- Value `avgPerDayMs` from AnalyticsScreen:
`activeDays.length > 0 ? totalMs / activeDays.length : 0`, with the JS
float division carried out in `ℚ`. -/
def avgPerDayMs (days : List DayData) (excludeZeroDays : Bool) : ℚ :=
  if 0 < (activeDays days excludeZeroDays).length then
    (totalAll days : ℚ) / ((activeDays days excludeZeroDays).length : ℚ)
  else 0

-- ── Specification-side notions used to state the claims ──────────────────

/-- Sum of the values of a per-task (or per-day) map. -/
def sumValues {κ : Type} (m : List (κ × Int)) : Int :=
  (m.map (fun p => p.2)).sum

/-- The first element of `chain` that belongs to `sel` — "the first member
of the selected set found when checking the task itself, then its parent,
grandparent, and so on". -/
def firstSelected (sel : List String) : List String → Option String
  | [] => none
  | x :: xs => if x ∈ sel then some x else firstSelected sel xs

/-- A session with its open (null-end) intervals removed. -/
def dropOpenIntervals (s : Session) : Session :=
  ⟨s.id, s.taskId, s.intervals.filter (fun iv => iv.iend.isSome)⟩

/-- What one interval contributes to day `d` in `aggregateToDays`: zero
when open, otherwise its overlap with `[midnight, next midnight)`. -/
def closedOverlap (d : Int) (iv : TimeInterval) : Int :=
  match iv.iend with
  | none => 0
  | some e => overlap iv.start e (dayStart d) (dayStart d + DAY)

/-- The part of a closed interval that falls in the final millisecond
`[next midnight - 1, next midnight)` of day `d` — exactly the span that
`calculateTimeByDay`, which clips days at 23:59:59.999, never counts. -/
def lastMsOf (d : Int) (iv : TimeInterval) : Int :=
  match iv.iend with
  | none => 0
  | some e => overlap iv.start e (dayStart d + DAY - 1) (dayStart d + DAY)

/-- Total final-millisecond time of day `d` over all sessions. -/
def lastMsSum (sessions : List Session) (d : Int) : Int :=
  (sessions.map (fun s => (s.intervals.map (lastMsOf d)).sum)).sum

/-- What one interval contributes to the day-`d` entry of
`calculateTimeByDay` (closed form of its inner day loop at day `d`). -/
def calcContrib (startDate endDate now d : Int) (iv : TimeInterval) : Int :=
  let ie := jsEnd iv now
  if floorDay iv.start ≤ d ∧ d ≤ min (floorDay ie) (floorDay endDate) ∧
      floorDay startDate ≤ d ∧
      max iv.start (dayStart d) < min ie (dayStart d + DAY - 1) then
    min ie (dayStart d + DAY - 1) - max iv.start (dayStart d)
  else 0

/-- An interval is closed with a nonzero end at or after its start — the
well-formedness under which the two day-bucketing implementations are
compared (an end of `0` would be falsy for `interval.end || Date.now()`).
-/
def closedNonzero (iv : TimeInterval) : Bool :=
  match iv.iend with
  | some b => decide (b ≠ 0) && decide (iv.start ≤ b)
  | none => false

/-- The value `computeEffectiveDisplay` stores for a task id `k`, if any:
the walk's result unless it is null, the falsy empty string, or the walk
ran out of budget. -/
def insVal (categories : List Category) (selectedIds : List String)
    (fuel : Nat) (k : String) : Option String :=
  match walkUp categories selectedIds fuel k with
  | some (some c) => if c = "" then none else some c
  | _ => none

-- ── Basic lemmas about overlap, maps and day ranges ──────────────────────

theorem overlap_nonneg (a b c d : Int) : 0 ≤ overlap a b c d := by
  unfold overlap; omega

theorem sumValues_nil {κ : Type} : sumValues ([] : List (κ × Int)) = 0 := rfl

theorem sumValues_cons {κ : Type} (p : κ × Int) (m : List (κ × Int)) :
    sumValues (p :: m) = p.2 + sumValues m := by
  simp [sumValues]

theorem sumValues_bump {κ : Type} [DecidableEq κ] (m : List (κ × Int))
    (k : κ) (v : Int) : sumValues (bump m k v) = sumValues m + v := by
  induction m with
  | nil => simp [bump, sumValues]
  | cons p rest ih =>
    obtain ⟨k1, v1⟩ := p
    by_cases h : k1 = k
    · simp [bump, h, sumValues_cons]; omega
    · simp [bump, h, sumValues_cons, ih]; omega

theorem lookupTotal_bump_self (m : List (Int × Int)) (k v : Int) :
    lookupTotal (bump m k v) k = lookupTotal m k + v := by
  induction m with
  | nil => simp [bump, lookupTotal]
  | cons p rest ih =>
    obtain ⟨k1, v1⟩ := p
    by_cases h : k1 = k
    · simp [bump, h, lookupTotal]
    · simp [bump, h, lookupTotal, ih]

theorem lookupTotal_bump_ne (m : List (Int × Int)) (k1 k v : Int)
    (h : k1 ≠ k) : lookupTotal (bump m k1 v) k = lookupTotal m k := by
  induction m with
  | nil => simp [bump, lookupTotal, h]
  | cons p rest ih =>
    obtain ⟨k2, v2⟩ := p
    by_cases h2 : k2 = k1
    · subst h2; simp [bump, lookupTotal, h]
    · simp [bump, h2, lookupTotal, ih]

theorem mem_dateRange (s e d : Int) : d ∈ dateRange s e ↔ s ≤ d ∧ d ≤ e := by
  simp only [dateRange, List.mem_map, List.mem_range]
  constructor
  · rintro ⟨i, hi, rfl⟩; omega
  · rintro ⟨h1, h2⟩
    exact ⟨(d - s).toNat, by omega, by omega⟩

theorem nodup_dateRange (s e : Int) : (dateRange s e).Nodup := by
  unfold dateRange
  refine List.Nodup.map ?_ (List.nodup_range _)
  intro a b h
  have h2 : s + (a : Int) = s + (b : Int) := h
  omega

-- ── The aggregator's per-day totals ──────────────────────────────────────

theorem dayDataFor_date (sessions : List Session) (d : Int) :
    (dayDataFor sessions d).date = d := rfl

theorem find?_map_dayDataFor (sessions : List Session) (d : Int)
    (l : List Int) :
    (l.map (dayDataFor sessions)).find? (fun x => x.date = d) =
      if d ∈ l then some (dayDataFor sessions d) else none := by
  induction l with
  | nil => simp
  | cons h t ih =>
    simp only [List.map_cons]
    by_cases hd : h = d
    · subst hd
      rw [List.find?_cons_of_pos _ (by simp [dayDataFor_date])]
      simp [List.mem_cons]
    · have hne : d ≠ h := fun h2 => hd h2.symm
      rw [List.find?_cons_of_neg _ (by simp [dayDataFor_date, hd]), ih]
      simp [List.mem_cons, hne]

theorem dayTotal_aggregate (sessions : List Session) (s e d : Int) :
    dayTotal (aggregateToDays sessions s e) d =
      if s ≤ d ∧ d ≤ e then (dayDataFor sessions d).totalMs else 0 := by
  unfold dayTotal aggregateToDays
  rw [find?_map_dayDataFor]
  by_cases h : s ≤ d ∧ d ≤ e
  · rw [if_pos ((mem_dateRange s e d).mpr h), if_pos h]
  · rw [if_neg (fun hm => h ((mem_dateRange s e d).mp hm)), if_neg h]

theorem accrueInterval_snd (d : Int) (t : String)
    (acc : List (String × Int) × Int) (iv : TimeInterval) :
    (accrueInterval d t acc iv).2 = acc.2 + closedOverlap d iv := by
  unfold accrueInterval closedOverlap
  cases hiv : iv.iend with
  | none => simp
  | some e =>
    have := overlap_nonneg iv.start e (dayStart d) (dayStart d + DAY)
    by_cases h : overlap iv.start e (dayStart d) (dayStart d + DAY) ≤ 0
    · simp [h]; omega
    · simp [h]

theorem foldl_accrue_snd (d : Int) (t : String) (ivs : List TimeInterval)
    (acc : List (String × Int) × Int) :
    (ivs.foldl (accrueInterval d t) acc).2 =
      acc.2 + (ivs.map (closedOverlap d)).sum := by
  induction ivs generalizing acc with
  | nil => simp
  | cons iv rest ih =>
    simp only [List.foldl_cons, List.map_cons, List.sum_cons]
    rw [ih, accrueInterval_snd]; ring

theorem dayDataFor_totalMs (sessions : List Session) (d : Int) :
    (dayDataFor sessions d).totalMs =
      (sessions.map (fun s => (s.intervals.map (closedOverlap d)).sum)).sum := by
  unfold dayDataFor
  simp only
  suffices h : ∀ (acc : List (String × Int) × Int),
      (sessions.foldl
        (fun acc s => s.intervals.foldl (accrueInterval d s.taskId) acc) acc).2 =
        acc.2 + (sessions.map (fun s => (s.intervals.map (closedOverlap d)).sum)).sum by
    simpa using h ([], 0)
  induction sessions with
  | nil => intro acc; simp
  | cons s rest ih =>
    intro acc
    simp only [List.foldl_cons, List.map_cons, List.sum_cons]
    rw [ih, foldl_accrue_snd]; ring

-- ── totalMs-equals-byTask-sum invariants ─────────────────────────────────

theorem accrueInterval_inv (d : Int) (t : String)
    (acc : List (String × Int) × Int) (iv : TimeInterval)
    (h : acc.2 = sumValues acc.1) :
    (accrueInterval d t acc iv).2 = sumValues (accrueInterval d t acc iv).1 := by
  unfold accrueInterval
  cases iv.iend with
  | none => exact h
  | some e =>
    by_cases hms : overlap iv.start e (dayStart d) (dayStart d + DAY) ≤ 0
    · simpa [hms] using h
    · simp only [hms, if_false]
      rw [sumValues_bump, h]

theorem foldl_accrue_inv (d : Int) (t : String) (ivs : List TimeInterval)
    (acc : List (String × Int) × Int) (h : acc.2 = sumValues acc.1) :
    (ivs.foldl (accrueInterval d t) acc).2 =
      sumValues (ivs.foldl (accrueInterval d t) acc).1 := by
  induction ivs generalizing acc with
  | nil => exact h
  | cons iv rest ih =>
    exact ih _ (accrueInterval_inv d t acc iv h)

theorem dayDataFor_inv (sessions : List Session) (d : Int) :
    (dayDataFor sessions d).totalMs = sumValues (dayDataFor sessions d).byTask := by
  unfold dayDataFor
  simp only
  suffices h : ∀ (acc : List (String × Int) × Int), acc.2 = sumValues acc.1 →
      (sessions.foldl
        (fun acc s => s.intervals.foldl (accrueInterval d s.taskId) acc) acc).2 =
      sumValues (sessions.foldl
        (fun acc s => s.intervals.foldl (accrueInterval d s.taskId) acc) acc).1 from
    h ([], 0) rfl
  induction sessions with
  | nil => intro acc hacc; exact hacc
  | cons s rest ih =>
    intro acc hacc
    exact ih _ (foldl_accrue_inv d s.taskId s.intervals acc hacc)

theorem merge_step_inv (eff : List (String × String))
    (acc : List (String × Int) × Int) (p : String × Int)
    (h : acc.2 = sumValues acc.1) :
    (match eff.lookup p.1 with
     | none => acc
     | some displayId =>
       if displayId = "" then acc else (bump acc.1 displayId p.2, acc.2 + p.2)).2 =
    sumValues (match eff.lookup p.1 with
     | none => acc
     | some displayId =>
       if displayId = "" then acc else (bump acc.1 displayId p.2, acc.2 + p.2)).1 := by
  cases eff.lookup p.1 with
  | none => exact h
  | some displayId =>
    by_cases hd : displayId = ""
    · simpa [hd] using h
    · simp only [hd, if_false]
      rw [sumValues_bump, h]

/-- C9 (implicit invariant). Every `DayData` produced by `aggregateToDays`
and every `DayData` produced by `mergeDayDataWithDisplay` has `totalMs`
equal to the sum of the values of its `byTask` map. -/
theorem claim_C9 :
    (∀ (sessions : List Session) (ds de : Int) (day : DayData),
        day ∈ aggregateToDays sessions ds de →
        day.totalMs = sumValues day.byTask) ∧
    (∀ (dayData : List DayData) (eff : List (String × String)) (day : DayData),
        day ∈ mergeDayDataWithDisplay dayData eff →
        day.totalMs = sumValues day.byTask) := by
  constructor
  · intro sessions ds de day hday
    unfold aggregateToDays at hday
    obtain ⟨d, _, rfl⟩ := List.mem_map.mp hday
    exact dayDataFor_inv sessions d
  · intro dayData eff day hday
    unfold mergeDayDataWithDisplay at hday
    obtain ⟨d0, _, rfl⟩ := List.mem_map.mp hday
    simp only
    suffices h : ∀ (acc : List (String × Int) × Int), acc.2 = sumValues acc.1 →
        (d0.byTask.foldl
          (fun acc p =>
            match eff.lookup p.1 with
            | none => acc
            | some displayId =>
              if displayId = "" then acc
              else (bump acc.1 displayId p.2, acc.2 + p.2)) acc).2 =
        sumValues (d0.byTask.foldl
          (fun acc p =>
            match eff.lookup p.1 with
            | none => acc
            | some displayId =>
              if displayId = "" then acc
              else (bump acc.1 displayId p.2, acc.2 + p.2)) acc).1 from
      h ([], 0) rfl
    induction d0.byTask with
    | nil => intro acc hacc; exact hacc
    | cons p rest ih =>
      intro acc hacc
      exact ih _ (merge_step_inv eff acc p hacc)

/-- Witness for C9 at a concrete session set and a concrete merge. -/
theorem claim_C9_witness :
    ((⟨0, 4000, [("t", 4000)]⟩ : DayData).totalMs =
      sumValues (⟨0, 4000, [("t", 4000)]⟩ : DayData).byTask) ∧
    ((⟨0, 7, [("f", 7)]⟩ : DayData).totalMs =
      sumValues (⟨0, 7, [("f", 7)]⟩ : DayData).byTask) :=
  ⟨claim_C9.1 [⟨"s", "t", [⟨1000, some 5000⟩]⟩] 0 0 _ (by decide),
   claim_C9.2 [⟨0, 7, [("t1", 3), ("t2", 4)]⟩] [("t1", "f"), ("t2", "f")] _
     (by decide)⟩

-- ── C1: open intervals are skipped by the aggregator ─────────────────────

/-- Counterexample to C1 as stated: a session whose only interval is
still open (end null) from 01:00 of day 0 contributes nothing to day 0,
although its overlap with day 0 at a later now (02:00) is positive, so a
still-running session's elapsed time is not included. -/
theorem claim_C1_counterexample :
    aggregateToDays [⟨"s1", "t1", [⟨3600000, none⟩]⟩] 0 0 =
      [⟨0, 0, []⟩] ∧
    (0 : Int) < overlap 3600000 7200000 (dayStart 0) (dayStart 0 + DAY) := by
  constructor
  · rfl
  · decide

theorem foldl_accrue_filter (d : Int) (t : String) (ivs : List TimeInterval)
    (acc : List (String × Int) × Int) :
    (ivs.filter (fun iv => iv.iend.isSome)).foldl (accrueInterval d t) acc =
      ivs.foldl (accrueInterval d t) acc := by
  induction ivs generalizing acc with
  | nil => rfl
  | cons iv rest ih =>
    cases hiv : iv.iend with
    | none =>
      have hstep : accrueInterval d t acc iv = acc := by
        unfold accrueInterval; rw [hiv]
      simp only [List.filter_cons, hiv, Option.isSome_none, List.foldl_cons,
        hstep]
      exact ih acc
    | some e =>
      simp only [List.filter_cons, hiv, Option.isSome_some, List.foldl_cons]
      exact ih _

/-- C1 amended: `aggregateToDays` computes each day's overlap for every
interval with a non-null end and skips an interval whose end is null
entirely — deleting all open intervals from the input changes nothing,
so a still-running session's elapsed time is never included. -/
theorem claim_C1_amended (sessions : List Session) (ds de : Int) :
    aggregateToDays (sessions.map dropOpenIntervals) ds de =
      aggregateToDays sessions ds de := by
  unfold aggregateToDays
  apply List.map_congr_left
  intro d _
  unfold dayDataFor
  suffices h : ∀ (acc : List (String × Int) × Int),
      (sessions.map dropOpenIntervals).foldl
        (fun acc s => s.intervals.foldl (accrueInterval d s.taskId) acc) acc =
      sessions.foldl
        (fun acc s => s.intervals.foldl (accrueInterval d s.taskId) acc) acc by
    rw [h ([], 0)]
  induction sessions with
  | nil => intro acc; rfl
  | cons s rest ih =>
    intro acc
    simp only [List.map_cons, List.foldl_cons]
    rw [show (dropOpenIntervals s).intervals.foldl
          (accrueInterval d (dropOpenIntervals s).taskId) acc =
        s.intervals.foldl (accrueInterval d s.taskId) acc from
      foldl_accrue_filter d s.taskId s.intervals acc]
    exact ih _

-- ── C5: an interval spanning two days splits exactly ─────────────────────

theorem dayDataFor_single (a b : Int) (sid tid : String) (d : Int) :
    (dayDataFor [⟨sid, tid, [⟨a, some b⟩]⟩] d).totalMs =
      overlap a b (dayStart d) (dayStart d + DAY) := by
  rw [dayDataFor_totalMs]
  simp [closedOverlap]

/-- C5. A closed interval that crosses exactly one local midnight, with
both touched days inside the aggregation range, contributes a positive
amount to exactly those two day buckets, and the two amounts sum to the
interval's exact duration `b - a`. -/
theorem claim_C5 (a b d s e : Int) (sid tid : String)
    (hs : s ≤ d) (he : d + 1 ≤ e)
    (ha1 : dayStart d ≤ a) (ha2 : a < dayStart (d + 1))
    (hb1 : dayStart (d + 1) < b) (hb2 : b ≤ dayStart (d + 2)) :
    0 < dayTotal (aggregateToDays [⟨sid, tid, [⟨a, some b⟩]⟩] s e) d ∧
    0 < dayTotal (aggregateToDays [⟨sid, tid, [⟨a, some b⟩]⟩] s e) (d + 1) ∧
    dayTotal (aggregateToDays [⟨sid, tid, [⟨a, some b⟩]⟩] s e) d +
      dayTotal (aggregateToDays [⟨sid, tid, [⟨a, some b⟩]⟩] s e) (d + 1) =
      b - a ∧
    ∀ d2 : Int, d2 ≠ d → d2 ≠ d + 1 →
      dayTotal (aggregateToDays [⟨sid, tid, [⟨a, some b⟩]⟩] s e) d2 = 0 := by
  have hd0 : dayTotal (aggregateToDays [⟨sid, tid, [⟨a, some b⟩]⟩] s e) d =
      overlap a b (dayStart d) (dayStart d + DAY) := by
    rw [dayTotal_aggregate, if_pos ⟨hs, by omega⟩, dayDataFor_single]
  have hd1 : dayTotal (aggregateToDays [⟨sid, tid, [⟨a, some b⟩]⟩] s e) (d + 1) =
      overlap a b (dayStart (d + 1)) (dayStart (d + 1) + DAY) := by
    rw [dayTotal_aggregate, if_pos ⟨by omega, he⟩, dayDataFor_single]
  simp only [dayStart, DAY] at ha1 ha2 hb1 hb2 hd0 hd1
  simp only [overlap, dayStart, DAY] at hd0 hd1
  refine ⟨by omega, by omega, by omega, ?_⟩
  intro d2 h2 h3
  rw [dayTotal_aggregate]
  by_cases hin : s ≤ d2 ∧ d2 ≤ e
  · rw [if_pos hin, dayDataFor_single]
    simp only [overlap, dayStart, DAY]
    omega
  · rw [if_neg hin]

/-- Witness for C5: a 23:00 to 01:00 session across days 0 and 1 inside
the range `[0, 2]`. -/
theorem claim_C5_witness :
    0 < dayTotal (aggregateToDays [⟨"s1", "t1", [⟨82800000, some 90000000⟩]⟩] 0 2) 0 ∧
    0 < dayTotal (aggregateToDays [⟨"s1", "t1", [⟨82800000, some 90000000⟩]⟩] 0 2) 1 ∧
    dayTotal (aggregateToDays [⟨"s1", "t1", [⟨82800000, some 90000000⟩]⟩] 0 2) 0 +
      dayTotal (aggregateToDays [⟨"s1", "t1", [⟨82800000, some 90000000⟩]⟩] 0 2) 1 =
      90000000 - 82800000 ∧
    dayTotal (aggregateToDays [⟨"s1", "t1", [⟨82800000, some 90000000⟩]⟩] 0 2) 2 = 0 := by
  have h := claim_C5 82800000 90000000 0 0 2 "s1" "t1" (by decide) (by decide)
    (by decide) (by decide) (by decide) (by decide)
  exact ⟨h.1, h.2.1, h.2.2.1, h.2.2.2 2 (by decide) (by decide)⟩

-- ── C2: the start/pause/resume/stop scenario ─────────────────────────────

/-- C2 evaluated on the code.  At the spec's literal `t = 0` the pause
guard `!timer.intervalStart` treats the timestamp `0` as missing, so pause
and resume are silent no-ops and stop-and-save closes the single original
interval at `180000`; the expected two-interval session (first conjunct of
the spec scenario) only appears once every timestamp is shifted away from
the falsy value `0`, as the second and third conjuncts show with `t = 1`.
-/
theorem claim_C2_scenario :
    ((startTimer ⟨[], none⟩ "task1" "sess1" 0).bind (fun s1 =>
      (pauseTimer s1 60000).bind (fun s2 =>
      (resumeTimer s2 120000).bind (fun s3 =>
      stopTimer s3 true 180000)))) =
      Except.ok ⟨[⟨"sess1", "task1", [⟨0, some 180000⟩]⟩], none⟩ ∧
    ((startTimer ⟨[], none⟩ "task1" "sess1" 1).bind (fun s1 =>
      (pauseTimer s1 60001).bind (fun s2 =>
      (resumeTimer s2 120001).bind (fun s3 =>
      stopTimer s3 true 180001)))) =
      Except.ok ⟨[⟨"sess1", "task1", [⟨1, some 60001⟩, ⟨120001, some 180001⟩]⟩],
        none⟩ ∧
    sessionDuration ⟨"sess1", "task1", [⟨1, some 60001⟩, ⟨120001, some 180001⟩]⟩
      0 = 120000 :=
  ⟨rfl, rfl, rfl⟩

-- ── C3: invalid transitions are silent no-ops ────────────────────────────

/-- Counterexample to C3 as stated: `pause()` while idle resolves
successfully (`.ok`, the promise is fulfilled, not rejected) and returns
the state unchanged — there is no failure observable by the caller. -/
theorem claim_C3_counterexample :
    pauseTimer ⟨[], none⟩ 5 = Except.ok ⟨[], none⟩ := rfl

/-- C3 amended: a timer command issued from a state that does not permit
it performs no mutation of the in-memory timer or of the persisted
sessions, but it resolves successfully with no error indication — the
failure is silently swallowed, not reported. -/
theorem claim_C3_amended (st : AppState) (now : Int) (save : Bool) :
    ((match st.timer with
      | none => True
      | some t => ¬(t.status = TimerStatus.running ∧
          truthyStart t.intervalStart)) →
      pauseTimer st now = Except.ok st) ∧
    ((match st.timer with
      | none => True
      | some t => t.status ≠ TimerStatus.paused) →
      resumeTimer st now = Except.ok st) ∧
    (st.timer = none → stopTimer st save now = Except.ok st) := by
  refine ⟨?_, ?_, ?_⟩
  · intro h
    cases htimer : st.timer with
    | none => simp [pauseTimer, htimer]
    | some t =>
      rw [htimer] at h
      simp only [pauseTimer, htimer]
      rw [if_neg h]
  · intro h
    cases htimer : st.timer with
    | none => simp [resumeTimer, htimer]
    | some t =>
      rw [htimer] at h
      simp only [resumeTimer, htimer]
      rw [if_neg h]
  · intro h
    simp [stopTimer, h]

/-- Witness for C3 amended at the idle state. -/
theorem claim_C3_witness :
    pauseTimer ⟨[], none⟩ 7 = Except.ok ⟨[], none⟩ ∧
    resumeTimer ⟨[], none⟩ 7 = Except.ok ⟨[], none⟩ ∧
    stopTimer ⟨[], none⟩ true 7 = Except.ok ⟨[], none⟩ :=
  ⟨(claim_C3_amended ⟨[], none⟩ 7 true).1 trivial,
   (claim_C3_amended ⟨[], none⟩ 7 true).2.1 trivial,
   (claim_C3_amended ⟨[], none⟩ 7 true).2.2 rfl⟩

-- ── The resolver walk versus the ancestor chain ──────────────────────────

theorem findCat_eq (categories : List Category) (cur : String)
    (cat : Category) (h : findCat categories cur = some cat) :
    cat ∈ categories ∧ cat.id = cur := by
  unfold findCat at h
  refine ⟨List.mem_of_find?_eq_some h, ?_⟩
  have := List.find?_some h
  simpa using this

theorem walkUp_eq_firstSelected (categories : List Category)
    (sel : List String) :
    ∀ (fuel : Nat) (cur : String) (chain : List String),
    ancestors categories fuel cur = some chain →
    walkUp categories sel fuel cur = some (firstSelected sel chain) := by
  intro fuel
  induction fuel with
  | zero => intro cur chain h; simp [ancestors] at h
  | succ n ih =>
    intro cur chain h
    simp only [ancestors] at h
    simp only [walkUp]
    cases hfind : findCat categories cur with
    | none =>
      simp only [hfind] at h
      obtain rfl : [cur] = chain := by simpa using h
      by_cases hsel : cur ∈ sel
      · simp [hsel, hfind, firstSelected]
      · simp [hsel, hfind, firstSelected]
    | some cat =>
      cases hp : cat.parentId with
      | none =>
        simp only [hfind, hp] at h
        obtain rfl : [cur] = chain := by simpa using h
        by_cases hsel : cur ∈ sel
        · simp [hsel, hfind, hp, firstSelected]
        · simp [hsel, hfind, hp, firstSelected]
      | some p =>
        simp only [hfind, hp] at h
        obtain ⟨ch2, hch2, rfl⟩ := Option.map_eq_some'.mp h
        by_cases hsel : cur ∈ sel
        · simp [hsel, firstSelected]
        · simp only [hfind, hp, firstSelected]
          rw [if_neg hsel, if_neg hsel]
          exact ih p ch2 hch2

theorem getEff_mapSet_self (m : List (String × String)) (k v : String) :
    getEff (mapSet m k v) k = some v := by
  induction m with
  | nil => simp [mapSet, getEff]
  | cons p rest ih =>
    obtain ⟨k1, v1⟩ := p
    by_cases h : k1 = k
    · simp [mapSet, h, getEff]
    · simp [mapSet, h, getEff, ih]

theorem getEff_mapSet_ne (m : List (String × String)) (k v q : String)
    (hq : q ≠ k) : getEff (mapSet m k v) q = getEff m q := by
  have hkq : k ≠ q := Ne.symm hq
  induction m with
  | nil => simp [mapSet, getEff, hkq]
  | cons p rest ih =>
    obtain ⟨k1, v1⟩ := p
    by_cases h : k1 = k
    · subst h
      simp [mapSet, getEff, hkq]
    · simp [mapSet, h, getEff, ih]

theorem getEff_fold (categories : List Category) (sel : List String)
    (fuel : Nat) (l : List Category) (m : List (String × String))
    (k : String) :
    getEff (l.foldl
      (fun m task =>
        match walkUp categories sel fuel task.id with
        | some (some chosen) =>
          if chosen = "" then m else mapSet m task.id chosen
        | _ => m) m) k =
    match insVal categories sel fuel k with
    | some v => if l.any (fun t => t.id = k) then some v else getEff m k
    | none => getEff m k := by
  induction l generalizing m with
  | nil =>
    cases insVal categories sel fuel k with
    | none => rfl
    | some v => simp
  | cons t rest ih =>
    simp only [List.foldl_cons, List.any_cons]
    by_cases hk : t.id = k
    · subst hk
      cases hw : walkUp categories sel fuel t.id with
      | none =>
        have hi : insVal categories sel fuel t.id = none := by
          unfold insVal; rw [hw]
        simp only [hw]
        rw [ih]
        simp only [hi]
      | some chosen =>
        cases chosen with
        | none =>
          have hi : insVal categories sel fuel t.id = none := by
            unfold insVal; rw [hw]
          simp only [hw]
          rw [ih]
          simp only [hi]
        | some c =>
          by_cases hc : c = ""
          · have hi : insVal categories sel fuel t.id = none := by
              unfold insVal; rw [hw]; simp [hc]
            simp only [hw]
            rw [if_pos hc, ih]
            simp only [hi]
          · have hi : insVal categories sel fuel t.id = some c := by
              unfold insVal; rw [hw]; simp [hc]
            simp only [hw]
            rw [if_neg hc, ih]
            simp only [hi]
            rw [getEff_mapSet_self, ite_self]
            simp
    · have hstep : ∀ m2 : List (String × String),
          getEff (match walkUp categories sel fuel t.id with
            | some (some chosen) =>
              if chosen = "" then m2 else mapSet m2 t.id chosen
            | _ => m2) k = getEff m2 k := by
        intro m2
        cases hw : walkUp categories sel fuel t.id with
        | none => rfl
        | some chosen =>
          cases chosen with
          | none => rfl
          | some c =>
            show getEff (if c = "" then m2 else mapSet m2 t.id c) k =
              getEff m2 k
            by_cases hc : c = ""
            · rw [if_pos hc]
            · rw [if_neg hc]
              exact getEff_mapSet_ne m2 t.id c k (fun h2 => hk h2.symm)
      rw [ih]
      cases hi : insVal categories sel fuel k with
      | none =>
        simp only [hi]
        exact hstep m
      | some v =>
        simp only [hi]
        simp only [decide_eq_false hk, Bool.false_or]
        cases hrest : rest.any (fun t2 => t2.id = k) with
        | true => simp [hrest]
        | false => simp [hrest, hstep m]

/-- Counterexample to C4 as stated: a task with the (falsy) empty-string
id that is itself selected is nevertheless absent from the resulting map,
because `if (chosen) map.set(...)` drops the empty string — even though
the walk did find the task itself in the selected set. -/
theorem claim_C4_counterexample :
    computeEffectiveDisplay [⟨"", ItemType.task, "n", "c", none, 0⟩] [""] 1 =
      [] ∧
    walkUp [⟨"", ItemType.task, "n", "c", none, 0⟩] [""] 1 "" =
      some (some "") :=
  ⟨rfl, rfl⟩

/-- C4 amended: for a task whose ancestor-or-self chain is `chain`, the
resolver maps the task to the first member of the selected set along
`chain` (self first, so a selected task maps to itself even when its
parent is also selected), except that a resolved id equal to the falsy
empty string is dropped; a task with no selected ancestor-or-self (or
whose resolved id is the empty string) is absent from the map. -/
theorem claim_C4_amended (categories : List Category) (sel : List String)
    (fuel : Nat) (task : Category) (chain : List String)
    (htask : task ∈ categories) (htype : task.type = ItemType.task)
    (hchain : ancestors categories fuel task.id = some chain) :
    getEff (computeEffectiveDisplay categories sel fuel) task.id =
      match firstSelected sel chain with
      | some c => if c = "" then none else some c
      | none => none := by
  unfold computeEffectiveDisplay
  rw [getEff_fold]
  have hins : insVal categories sel fuel task.id =
      match firstSelected sel chain with
      | some c => if c = "" then none else some c
      | none => none := by
    unfold insVal
    rw [walkUp_eq_firstSelected categories sel fuel task.id chain hchain]
    cases firstSelected sel chain with
    | none => rfl
    | some c => rfl
  rw [hins]
  have hany : (categories.filter
      (fun c => c.type = ItemType.task)).any (fun t => t.id = task.id) = true := by
    rw [List.any_eq_true]
    exact ⟨task, List.mem_filter.mpr ⟨htask, by simp [htype]⟩, by simp⟩
  cases hfs : firstSelected sel chain with
  | none => rfl
  | some c =>
    by_cases hc : c = ""
    · subst hc
      rfl
    · simp [hc, hany]

/-- Witness for C4: a task under a folder, both selected; the task's
chain is itself then the folder, and it maps to itself. -/
theorem claim_C4_witness :
    getEff (computeEffectiveDisplay
      [⟨"f", ItemType.folder, "F", "c", none, 0⟩,
       ⟨"t", ItemType.task, "T", "c", some "f", 1⟩] ["f", "t"] 3) "t" =
      (match firstSelected ["f", "t"] ["t", "f"] with
       | some c => if c = "" then none else some c
       | none => none) ∧
    (match firstSelected ["f", "t"] ["t", "f"] with
     | some c => if c = "" then none else some c
     | none => none) = some "t" :=
  ⟨claim_C4_amended
    [⟨"f", ItemType.folder, "F", "c", none, 0⟩,
     ⟨"t", ItemType.task, "T", "c", some "f", 1⟩] ["f", "t"] 3
    ⟨"t", ItemType.task, "T", "c", some "f", 1⟩ ["t", "f"]
    (by decide) rfl (by decide),
   by decide⟩

-- ── C6: the walk has no cycle guard ──────────────────────────────────────

theorem walkUp_cycle (fuel : Nat) :
    walkUp [⟨"a", ItemType.task, "A", "c", some "a", 0⟩] [] fuel "a" =
      none := by
  induction fuel with
  | zero => rfl
  | succ n ih =>
    simp only [walkUp, List.not_mem_nil, if_false]
    simpa [findCat, List.find?] using ih

/-- Counterexample to C6 as stated: on a malformed category list whose
parentId links form a (self-)cycle, the upward walk of
`computeEffectiveDisplay` never terminates — no finite number of loop
iterations reaches an exit, because the source has no max-depth or
visited-set guard. -/
theorem claim_C6_counterexample :
    ¬ walkTerminates [⟨"a", ItemType.task, "A", "c", some "a", 0⟩] [] "a" := by
  rintro ⟨fuel, h⟩
  rw [walkUp_cycle] at h
  simp at h

theorem walkUp_total_of_rank (categories : List Category)
    (sel : List String) (rank : String → Nat)
    (hrank : ∀ c ∈ categories,
      c.parentId.all (fun p => decide (rank p < rank c.id)) = true) :
    ∀ (n : Nat) (cur : String), rank cur ≤ n →
      (walkUp categories sel (n + 1) cur).isSome := by
  intro n
  induction n with
  | zero =>
    intro cur hc
    simp only [walkUp]
    by_cases hsel : cur ∈ sel
    · simp [hsel]
    · rw [if_neg hsel]
      cases hfind : findCat categories cur with
      | none => simp
      | some cat =>
        cases hp : cat.parentId with
        | none => simp [hp]
        | some p =>
          obtain ⟨hmem, hid⟩ := findCat_eq categories cur cat hfind
          have hlt := hrank cat hmem
          simp only [hp, Option.all, decide_eq_true_eq] at hlt
          rw [hid] at hlt
          exact absurd hlt (by omega)
  | succ n ih =>
    intro cur hc
    simp only [walkUp]
    by_cases hsel : cur ∈ sel
    · simp [hsel]
    · rw [if_neg hsel]
      cases hfind : findCat categories cur with
      | none => simp
      | some cat =>
        cases hp : cat.parentId with
        | none => simp [hp]
        | some p =>
          obtain ⟨hmem, hid⟩ := findCat_eq categories cur cat hfind
          have hlt := hrank cat hmem
          simp only [hp, Option.all, decide_eq_true_eq] at hlt
          rw [hid] at hlt
          simp only [hp]
          exact ih p (by omega)

/-- C6 amended: the upward walk terminates for every category list whose
parentId links admit a strictly decreasing rank toward the roots (i.e.
are acyclic); there is no cycle guard in the source, and on cyclic
malformed data the walk does not terminate, so `computeEffectiveDisplay`
is total only on acyclic inputs. -/
theorem claim_C6_amended (categories : List Category) (sel : List String)
    (rank : String → Nat)
    (hrank : ∀ c ∈ categories,
      c.parentId.all (fun p => decide (rank p < rank c.id)) = true) :
    ∀ cur : String, walkTerminates categories sel cur :=
  fun cur =>
    ⟨rank cur + 1,
     walkUp_total_of_rank categories sel rank hrank (rank cur) cur le_rfl⟩

-- ── C7: interrupted-session detection ────────────────────────────────────

theorem foldl_max_init_le (l : List TimeInterval) (init : Int) :
    init ≤ l.foldl (fun m iv => max m iv.start) init := by
  induction l generalizing init with
  | nil => exact le_rfl
  | cons iv rest ih =>
    simp only [List.foldl_cons]
    exact le_trans (le_max_left _ _) (ih (max init iv.start))

theorem le_foldl_max (l : List TimeInterval) (init : Int) (iv : TimeInterval)
    (h : iv ∈ l) : iv.start ≤ l.foldl (fun m iv => max m iv.start) init := by
  induction l generalizing init with
  | nil => cases h
  | cons head rest ih =>
    simp only [List.foldl_cons]
    rcases List.mem_cons.mp h with rfl | hmem
    · exact le_trans (le_max_right _ _) (foldl_max_init_le rest _)
    · exact ih _ hmem

theorem foldl_max_cases (l : List TimeInterval) (init : Int) :
    l.foldl (fun m iv => max m iv.start) init = init ∨
      ∃ iv ∈ l, l.foldl (fun m iv => max m iv.start) init = iv.start := by
  induction l generalizing init with
  | nil => exact Or.inl rfl
  | cons head rest ih =>
    simp only [List.foldl_cons]
    rcases ih (max init head.start) with heq | ⟨iv, hmem, heq⟩
    · rcases max_choice init head.start with hmax | hmax
      · exact Or.inl (by rw [heq, hmax])
      · exact Or.inr ⟨head, List.mem_cons_self _ _, by rw [heq, hmax]⟩
    · exact Or.inr ⟨iv, List.mem_cons_of_mem _ hmem, heq⟩

theorem maxStart_eq_open (s : Session)
    (hs : ∀ iv ∈ s.intervals, iv.iend = none →
          ∀ iv2 ∈ s.intervals, iv2.start ≤ iv.start)
    (iv : TimeInterval) (hmem : iv ∈ s.intervals) (hopen : iv.iend = none) :
    maxStart s = iv.start := by
  have h1 : iv.start ≤ maxStart s := le_foldl_max _ _ _ hmem
  have h2 : maxStart s ≤ iv.start := by
    unfold maxStart
    rcases foldl_max_cases s.intervals
        (match s.intervals with
         | [] => 0
         | iv :: _ => iv.start) with heq | ⟨iv0, hmem0, heq⟩
    · rw [heq]
      cases hl : s.intervals with
      | nil => rw [hl] at hmem; cases hmem
      | cons head rest =>
        simp only [hl]
        have : head ∈ s.intervals := by rw [hl]; exact List.mem_cons_self _ _
        exact hs iv hmem hopen head this
    · rw [heq]
      exact hs iv hmem hopen iv0 hmem0
  omega

theorem pickLatest_aux (l : List Session) (b : Session) :
    ∃ r, l.foldl
      (fun best s =>
        match best with
        | none => some s
        | some b2 => if maxStart b2 < maxStart s then some s else some b2)
      (some b) = some r ∧
      (r = b ∨ r ∈ l) ∧ maxStart b ≤ maxStart r ∧
      ∀ s ∈ l, maxStart s ≤ maxStart r := by
  induction l generalizing b with
  | nil => exact ⟨b, rfl, Or.inl rfl, le_rfl, by simp⟩
  | cons s t ih =>
    simp only [List.foldl_cons]
    by_cases hbs : maxStart b < maxStart s
    · rw [if_pos hbs]
      obtain ⟨r, hr, hmem, hle, hall⟩ := ih s
      refine ⟨r, hr, ?_, by omega, ?_⟩
      · rcases hmem with rfl | hm
        · exact Or.inr (List.mem_cons_self _ _)
        · exact Or.inr (List.mem_cons_of_mem _ hm)
      · intro s2 hs2
        rcases List.mem_cons.mp hs2 with rfl | hm
        · exact hle
        · exact hall s2 hm
    · rw [if_neg hbs]
      obtain ⟨r, hr, hmem, hle, hall⟩ := ih b
      refine ⟨r, hr, ?_, hle, ?_⟩
      · rcases hmem with rfl | hm
        · exact Or.inl rfl
        · exact Or.inr (List.mem_cons_of_mem _ hm)
      · intro s2 hs2
        rcases List.mem_cons.mp hs2 with rfl | hm
        · omega
        · exact hall s2 hm

theorem pickLatest_eq_none_iff (l : List Session) :
    pickLatest l = none ↔ l = [] := by
  cases l with
  | nil => simp [pickLatest]
  | cons s t =>
    simp only [pickLatest, List.foldl_cons]
    obtain ⟨r, hr, _, _, _⟩ := pickLatest_aux t s
    rw [hr]
    simp

theorem pickLatest_some (l : List Session) (r : Session)
    (h : pickLatest l = some r) :
    r ∈ l ∧ ∀ s ∈ l, maxStart s ≤ maxStart r := by
  cases l with
  | nil => cases h
  | cons s t =>
    simp only [pickLatest, List.foldl_cons] at h
    obtain ⟨r2, hr2, hmem, hle, hall⟩ := pickLatest_aux t s
    rw [hr2] at h
    obtain rfl : r2 = r := by injection h
    constructor
    · rcases hmem with rfl | hm
      · exact List.mem_cons_self _ _
      · exact List.mem_cons_of_mem _ hm
    · intro s2 hs2
      rcases List.mem_cons.mp hs2 with rfl | hm
      · exact hle
      · exact hall s2 hm

theorem hasOpen_iff (s : Session) :
    hasOpen s = true ↔ ∃ iv ∈ s.intervals, iv.iend = none := by
  unfold hasOpen
  rw [List.any_eq_true]
  constructor
  · rintro ⟨iv, hmem, hiv⟩
    exact ⟨iv, hmem, Option.isNone_iff_eq_none.mp (by simpa using hiv)⟩
  · rintro ⟨iv, hmem, hiv⟩
    exact ⟨iv, hmem, by simp [hiv]⟩

/-- C7. Under the data-model invariant that intervals of one session are
chronologically ordered with the open interval last (its start is maximal
in the session), detection returns, among all sessions containing an open
interval, one whose open interval's start is latest (maximal over every
open interval of every session), and returns null when no session has an
open interval. -/
theorem claim_C7 (sessions : List Session)
    (hinv : ∀ s ∈ sessions, ∀ iv ∈ s.intervals, iv.iend = none →
            ∀ iv2 ∈ s.intervals, iv2.start ≤ iv.start) :
    (findInterruptedSession sessions = none ↔
      ∀ s ∈ sessions, ∀ iv ∈ s.intervals, iv.iend ≠ none) ∧
    (∀ r, findInterruptedSession sessions = some r →
      r ∈ sessions ∧ (∃ ivr ∈ r.intervals, ivr.iend = none) ∧
      (∀ s ∈ sessions, ∀ iv ∈ s.intervals, iv.iend = none →
        ∀ ivr ∈ r.intervals, ivr.iend = none → iv.start ≤ ivr.start)) := by
  constructor
  · unfold findInterruptedSession
    rw [pickLatest_eq_none_iff, List.filter_eq_nil_iff]
    constructor
    · intro h s hs iv hiv hopen
      exact h s hs ((hasOpen_iff s).mpr ⟨iv, hiv, hopen⟩)
    · intro h s hs hopen
      obtain ⟨iv, hiv, hivopen⟩ := (hasOpen_iff s).mp (by simpa using hopen)
      exact h s hs iv hiv hivopen
  · intro r hr
    unfold findInterruptedSession at hr
    obtain ⟨hrmem, hall⟩ := pickLatest_some _ r hr
    obtain ⟨hrs, hropen⟩ := List.mem_filter.mp hrmem
    obtain ⟨ivr0, hivr0, hivr0open⟩ := (hasOpen_iff r).mp hropen
    refine ⟨hrs, ⟨ivr0, hivr0, hivr0open⟩, ?_⟩
    intro s hs iv hivmem hivopen ivr hivrmem hivropen
    have hsf : s ∈ sessions.filter hasOpen :=
      List.mem_filter.mpr ⟨hs, (hasOpen_iff s).mpr ⟨iv, hivmem, hivopen⟩⟩
    have h1 : maxStart s ≤ maxStart r := hall s hsf
    have h2 : maxStart s = iv.start :=
      maxStart_eq_open s (hinv s hs) iv hivmem hivopen
    have h3 : maxStart r = ivr.start :=
      maxStart_eq_open r (hinv r hrs) ivr hivrmem hivropen
    omega

/-- Witness for C7: three sessions, two interrupted; the one whose open
interval starts latest (at 10) is returned. -/
theorem claim_C7_witness :
    findInterruptedSession
      [⟨"a", "t", [⟨0, some 50000⟩]⟩, ⟨"b", "t", [⟨10, none⟩]⟩,
       ⟨"c", "t", [⟨5, none⟩]⟩] = some ⟨"b", "t", [⟨10, none⟩]⟩ ∧
    (⟨"b", "t", [⟨10, none⟩]⟩ : Session) ∈
      [(⟨"a", "t", [⟨0, some 50000⟩]⟩ : Session), ⟨"b", "t", [⟨10, none⟩]⟩,
       ⟨"c", "t", [⟨5, none⟩]⟩] ∧
    (∃ ivr ∈ (⟨"b", "t", [⟨10, none⟩]⟩ : Session).intervals,
      ivr.iend = none) :=
  ⟨by decide,
   (((claim_C7
      [⟨"a", "t", [⟨0, some 50000⟩]⟩, ⟨"b", "t", [⟨10, none⟩]⟩,
       ⟨"c", "t", [⟨5, none⟩]⟩] (by decide)).2 ⟨"b", "t", [⟨10, none⟩]⟩
      (by decide)).1),
   (((claim_C7
      [⟨"a", "t", [⟨0, some 50000⟩]⟩, ⟨"b", "t", [⟨10, none⟩]⟩,
       ⟨"c", "t", [⟨5, none⟩]⟩] (by decide)).2 ⟨"b", "t", [⟨10, none⟩]⟩
      (by decide)).2.1)⟩

-- ── C8: the average-per-day denominator ──────────────────────────────────

/-- C8. The average per day is the total over all days in the merged set
divided by the active-day count; with `excludeZeroDays = true` the
denominator counts exactly the days with nonzero (positive) totals; and
with zero active days the average is `0` (the division is guarded — in
this embedding the result lives in `ℚ`, where no NaN exists). -/
theorem claim_C8 (days : List DayData) (excludeZeroDays : Bool)
    (hpos : ∀ d ∈ days, 0 ≤ d.totalMs) :
    (activeDays days true).length =
      (days.filter (fun d => d.totalMs ≠ 0)).length ∧
    avgPerDayMs days excludeZeroDays =
      (if (activeDays days excludeZeroDays).length = 0 then 0
       else (totalAll days : ℚ) /
         ((activeDays days excludeZeroDays).length : ℚ)) := by
  constructor
  · have h1 : activeDays days true = days.filter (fun d => 0 < d.totalMs) :=
      rfl
    rw [h1]
    congr 1
    apply List.filter_congr
    intro d hd
    have := hpos d hd
    simp only [decide_eq_decide]
    omega
  · unfold avgPerDayMs
    rcases Nat.eq_zero_or_pos (activeDays days excludeZeroDays).length with
      h | h
    · simp [h]
    · rw [if_pos h, if_neg (by omega)]

/-- Witness for C8: seven days, three of them zero — the denominator is 4
and the average is 120/4 = 30. -/
theorem claim_C8_witness :
    (activeDays
      [⟨0, 0, []⟩, ⟨1, 10, []⟩, ⟨2, 0, []⟩, ⟨3, 30, []⟩, ⟨4, 0, []⟩,
       ⟨5, 50, []⟩, ⟨6, 30, []⟩] true).length =
      ([(⟨0, 0, []⟩ : DayData), ⟨1, 10, []⟩, ⟨2, 0, []⟩, ⟨3, 30, []⟩,
        ⟨4, 0, []⟩, ⟨5, 50, []⟩, ⟨6, 30, []⟩].filter
        (fun d => d.totalMs ≠ 0)).length ∧
    (activeDays
      [⟨0, 0, []⟩, ⟨1, 10, []⟩, ⟨2, 0, []⟩, ⟨3, 30, []⟩, ⟨4, 0, []⟩,
       ⟨5, 50, []⟩, ⟨6, 30, []⟩] true).length = 4 ∧
    avgPerDayMs
      [⟨0, 0, []⟩, ⟨1, 10, []⟩, ⟨2, 0, []⟩, ⟨3, 30, []⟩, ⟨4, 0, []⟩,
       ⟨5, 50, []⟩, ⟨6, 30, []⟩] true = 30 := by
  refine ⟨(claim_C8
    [⟨0, 0, []⟩, ⟨1, 10, []⟩, ⟨2, 0, []⟩, ⟨3, 30, []⟩, ⟨4, 0, []⟩,
     ⟨5, 50, []⟩, ⟨6, 30, []⟩] true (by decide)).1, by decide, ?_⟩
  norm_num [avgPerDayMs, activeDays, totalAll]

/-- Witness for C6 amended: a two-node acyclic chain with an explicit
decreasing rank. -/
theorem claim_C6_witness :
    (∀ c ∈ [(⟨"f", ItemType.folder, "F", "c", none, 0⟩ : Category),
            ⟨"t", ItemType.task, "T", "c", some "f", 1⟩],
      c.parentId.all (fun p => decide
        ((fun id => if id = "t" then 1 else 0 : String → Nat) p <
         (fun id => if id = "t" then 1 else 0 : String → Nat) c.id)) = true) ∧
    walkTerminates
      [⟨"f", ItemType.folder, "F", "c", none, 0⟩,
       ⟨"t", ItemType.task, "T", "c", some "f", 1⟩] ["f"] "t" :=
  ⟨by decide,
   claim_C6_amended
     [⟨"f", ItemType.folder, "F", "c", none, 0⟩,
      ⟨"t", ItemType.task, "T", "c", some "f", 1⟩] ["f"]
     (fun id => if id = "t" then 1 else 0) (by decide) "t"⟩

-- ── C10: the two day-bucketing implementations ───────────────────────────

theorem floorDay_bounds (t : Int) :
    DAY * floorDay t ≤ t ∧ t < DAY * floorDay t + DAY := by
  unfold floorDay DAY
  omega

theorem floorDay_dayStart (d : Int) : floorDay (dayStart d) = d := by
  unfold floorDay dayStart DAY
  omega

theorem sum_map_add {α : Type} (l : List α) (g h : α → Int) :
    (l.map (fun x => g x + h x)).sum = (l.map g).sum + (l.map h).sum := by
  induction l with
  | nil => simp
  | cons x rest ih =>
    simp only [List.map_cons, List.sum_cons, ih]
    ring

theorem foldl_calcdays_lookup (sd ie a : Int) :
    ∀ (ds : List Int), ds.Nodup → ∀ (m : List (Int × Int)) (d : Int),
    lookupTotal (ds.foldl
      (fun m d2 =>
        if floorDay sd ≤ d2 then
          if max a (dayStart d2) < min ie (dayStart d2 + DAY - 1) then
            bump m d2 (min ie (dayStart d2 + DAY - 1) - max a (dayStart d2))
          else m
        else m) m) d =
    lookupTotal m d +
      (if d ∈ ds ∧ floorDay sd ≤ d ∧
          max a (dayStart d) < min ie (dayStart d + DAY - 1) then
        min ie (dayStart d + DAY - 1) - max a (dayStart d)
      else 0) := by
  intro ds
  induction ds with
  | nil =>
    intro _ m d
    simp
  | cons d2 rest ih =>
    intro hnd m d
    obtain ⟨hd2notin, hndrest⟩ := List.nodup_cons.mp hnd
    simp only [List.foldl_cons]
    by_cases hd2 : d2 = d
    · subst hd2
      rw [ih hndrest]
      have hnotin : ¬(d2 ∈ rest ∧ floorDay sd ≤ d2 ∧
          max a (dayStart d2) < min ie (dayStart d2 + DAY - 1)) :=
        fun hcon => hd2notin hcon.1
      rw [if_neg hnotin]
      by_cases hg : floorDay sd ≤ d2
      · by_cases hlt : max a (dayStart d2) < min ie (dayStart d2 + DAY - 1)
        · rw [if_pos hg, if_pos hlt, lookupTotal_bump_self,
            if_pos ⟨List.mem_cons_self _ _, hg, hlt⟩]
          ring
        · have hno : ¬(d2 ∈ d2 :: rest ∧ floorDay sd ≤ d2 ∧
              max a (dayStart d2) < min ie (dayStart d2 + DAY - 1)) :=
            fun hcon => hlt hcon.2.2
          rw [if_pos hg, if_neg hlt, if_neg hno]
      · have hno : ¬(d2 ∈ d2 :: rest ∧ floorDay sd ≤ d2 ∧
            max a (dayStart d2) < min ie (dayStart d2 + DAY - 1)) :=
          fun hcon => hg hcon.2.1
        rw [if_neg hg, if_neg hno]
    · have hne : d ≠ d2 := fun h2 => hd2 h2.symm
      have hpres : lookupTotal
          (if floorDay sd ≤ d2 then
            if max a (dayStart d2) < min ie (dayStart d2 + DAY - 1) then
              bump m d2 (min ie (dayStart d2 + DAY - 1) - max a (dayStart d2))
            else m
          else m) d = lookupTotal m d := by
        by_cases hg : floorDay sd ≤ d2
        · by_cases hlt : max a (dayStart d2) < min ie (dayStart d2 + DAY - 1)
          · rw [if_pos hg, if_pos hlt, lookupTotal_bump_ne _ _ _ _ hd2]
          · rw [if_pos hg, if_neg hlt]
        · rw [if_neg hg]
      rw [ih hndrest, hpres]
      have hiff : (d ∈ d2 :: rest ∧ floorDay sd ≤ d ∧
          max a (dayStart d) < min ie (dayStart d + DAY - 1)) ↔
          (d ∈ rest ∧ floorDay sd ≤ d ∧
          max a (dayStart d) < min ie (dayStart d + DAY - 1)) := by
        constructor
        · rintro ⟨hm, hq⟩
          rcases List.mem_cons.mp hm with rfl | hm2
          · exact absurd rfl hne
          · exact ⟨hm2, hq⟩
        · rintro ⟨hm, hq⟩
          exact ⟨List.mem_cons_of_mem _ hm, hq⟩
      rw [if_congr hiff rfl rfl]

theorem calcStep_lookup (sd ed now : Int) (m : List (Int × Int))
    (iv : TimeInterval) (d : Int) :
    lookupTotal (calcStep sd ed now m iv) d =
      lookupTotal m d + calcContrib sd ed now d iv := by
  simp only [calcStep]
  rw [foldl_calcdays_lookup sd (jsEnd iv now) iv.start _
    (nodup_dateRange _ _) m d]
  congr 1
  simp only [calcContrib, mem_dateRange]
  by_cases h : floorDay iv.start ≤ d ∧
      d ≤ min (floorDay (jsEnd iv now)) (floorDay ed) ∧ floorDay sd ≤ d ∧
      max iv.start (dayStart d) < min (jsEnd iv now) (dayStart d + DAY - 1)
  · rw [if_pos ⟨⟨h.1, h.2.1⟩, h.2.2⟩, if_pos h]
  · have hno : ¬((floorDay iv.start ≤ d ∧
        d ≤ min (floorDay (jsEnd iv now)) (floorDay ed)) ∧ floorDay sd ≤ d ∧
        max iv.start (dayStart d) < min (jsEnd iv now) (dayStart d + DAY - 1)) :=
      fun hcon => h ⟨hcon.1.1, hcon.1.2, hcon.2⟩
    rw [if_neg hno, if_neg h]

theorem foldl_calcStep_intervals (sd ed now d : Int)
    (ivs : List TimeInterval) (m : List (Int × Int)) :
    lookupTotal (ivs.foldl (calcStep sd ed now) m) d =
      lookupTotal m d + (ivs.map (calcContrib sd ed now d)).sum := by
  induction ivs generalizing m with
  | nil => simp
  | cons iv rest ih =>
    simp only [List.foldl_cons, List.map_cons, List.sum_cons]
    rw [ih, calcStep_lookup]
    ring

theorem calculateTimeByDay_lookup (sessions : List Session)
    (sd ed now d : Int) :
    lookupTotal (calculateTimeByDay sessions sd ed now) d =
      (sessions.map
        (fun s => (s.intervals.map (calcContrib sd ed now d)).sum)).sum := by
  unfold calculateTimeByDay
  suffices h : ∀ m : List (Int × Int),
      lookupTotal (sessions.foldl
        (fun m s => s.intervals.foldl (calcStep sd ed now) m) m) d =
      lookupTotal m d +
        (sessions.map
          (fun s => (s.intervals.map (calcContrib sd ed now d)).sum)).sum by
    simpa [lookupTotal] using h []
  induction sessions with
  | nil => intro m; simp
  | cons s rest ih =>
    intro m
    simp only [List.foldl_cons, List.map_cons, List.sum_cons]
    rw [ih, foldl_calcStep_intervals]
    ring

theorem contrib_split (a b s e now d : Int) (hab : a ≤ b) (hb0 : b ≠ 0)
    (hs : s ≤ d) (hde : d ≤ e) :
    closedOverlap d ⟨a, some b⟩ =
      calcContrib (dayStart s) (dayStart e) now d ⟨a, some b⟩ +
      lastMsOf d ⟨a, some b⟩ := by
  simp only [closedOverlap, calcContrib, lastMsOf, jsEnd]
  rw [if_neg hb0, floorDay_dayStart, floorDay_dayStart]
  have ha := floorDay_bounds a
  have hb := floorDay_bounds b
  simp only [overlap, dayStart, DAY] at ha hb ⊢
  split_ifs with h
  · omega
  · omega

/-- Counterexample to C10 as stated: a closed one-millisecond interval
occupying the final millisecond of day 0 (`[86399999, 86400000]`) is
counted by `aggregateToDays` (totalMs 1) but not by `calculateTimeByDay`,
which clips each day at 23:59:59.999 — the two implementations disagree.
-/
theorem claim_C10_counterexample :
    lookupTotal (calculateTimeByDay
      [⟨"s1", "t1", [⟨86399999, some 86400000⟩]⟩]
      (dayStart 0) (dayStart 0) 100000000000) 0 = 0 ∧
    dayTotal (aggregateToDays
      [⟨"s1", "t1", [⟨86399999, some 86400000⟩]⟩] 0 0) 0 = 1 :=
  ⟨rfl, rfl⟩

/-- C10 amended: on session sets whose intervals are all closed with a
nonzero end not before their start, the per-day total of
`calculateTimeByDay` agrees with `aggregateToDays` except for the final
millisecond of each day: for every day of the range, the aggregator's
total equals the helper's total plus the time falling in that day's last
millisecond `[midnight+86399999, midnight+86400000)`, which only the
aggregator counts. -/
theorem claim_C10_amended (sessions : List Session) (s e now d : Int)
    (hclosed : ∀ sess ∈ sessions, ∀ iv ∈ sess.intervals,
        closedNonzero iv = true)
    (hd : d ∈ dateRange s e) :
    dayTotal (aggregateToDays sessions s e) d =
      lookupTotal
        (calculateTimeByDay sessions (dayStart s) (dayStart e) now) d +
      lastMsSum sessions d := by
  obtain ⟨hs, hde⟩ := (mem_dateRange s e d).mp hd
  rw [dayTotal_aggregate, if_pos ⟨hs, hde⟩, dayDataFor_totalMs,
    calculateTimeByDay_lookup]
  unfold lastMsSum
  have key : ∀ sess ∈ sessions,
      (sess.intervals.map (closedOverlap d)).sum =
        (sess.intervals.map
          (calcContrib (dayStart s) (dayStart e) now d)).sum +
        (sess.intervals.map (lastMsOf d)).sum := by
    intro sess hsess
    have hiv : ∀ iv ∈ sess.intervals, closedOverlap d iv =
        calcContrib (dayStart s) (dayStart e) now d iv + lastMsOf d iv := by
      intro iv hivmem
      have hc := hclosed sess hsess iv hivmem
      cases iv with
      | mk a en =>
        cases hen : en with
        | none =>
          rw [hen] at hc
          simp [closedNonzero] at hc
        | some b =>
          rw [hen] at hc
          simp only [closedNonzero, Bool.and_eq_true, decide_eq_true_eq]
            at hc
          exact contrib_split a b s e now d hc.2 hc.1 hs hde
    rw [List.map_congr_left hiv, sum_map_add]
  rw [List.map_congr_left key, sum_map_add]

/-- Witness for C10 amended: an ordinary afternoon interval inside day 0,
where the last-millisecond correction is zero and the two totals agree.
-/
theorem claim_C10_witness :
    (∀ sess ∈ [(⟨"s1", "t1", [⟨1000, some 5000⟩]⟩ : Session)],
      ∀ iv ∈ sess.intervals, closedNonzero iv = true) ∧
    dayTotal (aggregateToDays [⟨"s1", "t1", [⟨1000, some 5000⟩]⟩] 0 0) 0 =
      lookupTotal (calculateTimeByDay [⟨"s1", "t1", [⟨1000, some 5000⟩]⟩]
        (dayStart 0) (dayStart 0) 777) 0 +
      lastMsSum [⟨"s1", "t1", [⟨1000, some 5000⟩]⟩] 0 :=
  ⟨by decide,
   claim_C10_amended [⟨"s1", "t1", [⟨1000, some 5000⟩]⟩] 0 0 777 0
     (by decide) (by decide)⟩

end TimeAudit
